import Mathlib

/-!
Verification development for the cadquery-models repository.

The repository is a collection of parametric CAD part generators built on the
CadQuery B-rep kernel.  This file gives a shallow embedding of the parts of the
code that the checked claims are about:

* the planar Wire Composer plugins `combine_wires` (src/xmount/utilities.py,
  src/MolleMount/utilities.py) and `union_pending` (src/lenscover/utilities.py),
  modelled over planar wires represented by the closed region they enclose;
* the `XMountPlug` constructor and build of src/XMount/xmount_plug.py
  (deep-copy of the measures object, derived-measure writes, boolean
  composition structure);
* the derived slope-angle formulas of src/FootBlock.py and
  src/footblock/foot_block.py;
* the lid-fixer top-face fillet scenario of src/lidfixer/lid_fixer.py;
* workplane tagging and restoration as used by src/footblock/foot_block.py;
* the debug side channel of `LensCover.profile_wire`
  (src/lenscover/lens_cover.py).

Planar closed wires are represented by the plane they lie in (a normal
direction plus a position along that normal) together with the closed planar
region they enclose; a prism obtained by extruding such a wire is represented
by its cross-section region and the interval it covers along the normal.  This
is faithful for the coplanar-wire situations all checked claims are about.
-/

namespace CadModels

/-- Points of a 2D sketch plane, in plane-local coordinates. -/
abbrev Pt2 := ℝ × ℝ

/-- Vectors / directions in 3D model space. -/
abbrev V3 := ℝ × ℝ × ℝ

/-- An oriented workplane frame: origin, in-plane x direction and normal
(CadQuery `Plane`). -/
structure Frame where
  origin : V3
  xDir : V3
  normal : V3

/-- The global XY frame, `cq.Workplane("XY")`. -/
def xyFrame : Frame := ⟨(0, 0, 0), (1, 0, 0), (0, 0, 1)⟩

/-- The global YZ frame, `cq.Workplane("YZ")`: plane-local x is global y,
plane-local y is global z, normal is global x. -/
def yzFrame : Frame := ⟨(0, 0, 0), (0, 1, 0), (1, 0, 0)⟩

/-- A closed planar wire (`cq.Wire`): the plane it lies in, given by the plane
normal and the wire's position along that normal, and the closed planar region
the wire encloses, in plane-local coordinates.  Representing a closed wire by
its enclosed region identifies wires that are equal up to kernel tolerance,
which is the equality all the checked claims use. -/
structure Wire where
  normal : V3
  height : ℝ
  region : Set Pt2

/-- A prism solid obtained by extruding planar wires (`cq.Solid` in the shapes
the Wire Composer builds): cross-section region in plane coordinates, plus the
interval `[lo, hi]` it covers along the plane normal. -/
structure Solid where
  normal : V3
  lo : ℝ
  hi : ℝ
  region : Set Pt2

/-- A planar face of a solid (`cq.Face`). -/
structure Face where
  normal : V3
  height : ℝ
  region : Set Pt2

/-- Objects that can sit on a CadQuery workplane stack. -/
inductive Obj where
  | wire (w : Wire)
  | solid (s : Solid)

/-- A CadQuery `Workplane`: the active frame, the object stack
(`self.objects`), the pending wires (`self.ctx.pendingWires`) and the named
frame tags (`self.ctx.tags`).  CadQuery stores whole workplanes in
`ctx.tags`; only the tagged frame is ever restored from a tag
(via `copyWorkplane`), so only the frame is recorded here. -/
structure Workplane where
  plane : Frame
  objects : List Obj
  pendingWires : List Wire
  tags : List (String × Frame)

/-- The wires on the stack: `[obj for obj in self.objects if isinstance(obj, cq.Wire)]`. -/
def stackWires (self : Workplane) : List Wire :=
  self.objects.filterMap fun o =>
    match o with
    | .wire w => some w
    | .solid _ => none

/-- Kernel extrusion of a closed planar wire by distance `d` along its plane
normal (`.add(wire).toPending().extrude(d)` on a workplane coplanar with the
wire): the prism over the enclosed region. -/
def extrudeWire (w : Wire) (d : ℝ) : Solid :=
  ⟨w.normal, w.height, w.height + d, w.region⟩

/-- Kernel 3D boolean union of two solids (`Workplane::combine`).  For two
coplanar prisms covering the same interval along the same normal — the only
shapes the Wire Composer fuses — the union is the prism over the union of the
cross-sections. -/
def fuseSolids (s t : Solid) : Solid :=
  ⟨s.normal, s.lo, s.hi, s.region ∪ t.region⟩

/-- Face selection with `cq.DirectionMinMaxSelector(dir, directionMax)`.
For a prism whose axis is `dir` — as in the Wire Composer, which passes the
extrude direction of the prisms it just built — the face minimal along `dir`
is the bottom cap at `lo` and the maximal face is the top cap at `hi`. -/
def selectFaceMinMax (dir : V3) (directionMax : Bool) (s : Solid) : Face :=
  if directionMax then ⟨s.normal, s.hi, s.region⟩ else ⟨s.normal, s.lo, s.region⟩

/-- The wires of a planar face (`.wires()` after a face selection): the face
outline, as a closed planar wire in the face's plane. -/
def faceWires (f : Face) : Wire :=
  ⟨f.normal, f.height, f.region⟩

/-- Shared core of `combine_wires` and `union_pending` on a nonempty wire
list `w0 :: rest` (the source duplicates this code in
src/xmount/utilities.py, src/MolleMount/utilities.py and
src/lenscover/utilities.py): take the extrude direction from the first wire,
extrude every wire by the fixed distance 1, take the 3D union of all the
solids, select the face minimal along the extrude direction and return its
wires. -/
def planarUnionCore (w0 : Wire) (rest : List Wire) : Wire :=
  let extrude_direction := w0.normal
  let first_solid := extrudeWire w0 1
  let fused := (rest.map (fun w => extrudeWire w 1)).foldl fuseSolids first_solid
  faceWires (selectFaceMinMax extrude_direction false fused)

/-- CadQuery plugin `combine_wires` (src/xmount/utilities.py lines 15-75,
src/MolleMount/utilities.py lines 3-61): replaces all wires on the stack with
their 2D union.  With fewer than two wires on the stack it returns `self`
unchanged; otherwise the result is a fresh workplane chain started from
`cq.Workplane("XY")` holding the combined wire on its stack and nothing in its
pending wires. -/
def combine_wires (self : Workplane) : Workplane :=
  let wires := stackWires self
  match wires with
  | w0 :: w1 :: rest =>
      { plane := xyFrame
        objects := [Obj.wire (planarUnionCore w0 (w1 :: rest))]
        pendingWires := []
        tags := [] }
  | _ => self

/-- CadQuery plugin `union_pending` (src/lenscover/utilities.py lines 3-46):
replaces all pending wires with their 2D union.  `self._consolidateWires()`
merges pending edges into closed wires; in this model pending wires are
already closed wires, so it is the pending-wire list itself.  With fewer than
two pending wires it returns `self` unchanged; otherwise the combined wire
replaces the pending wires and is put on the stack of the returned chain. -/
def union_pending (self : Workplane) : Workplane :=
  let wires := self.pendingWires
  match wires with
  | w0 :: w1 :: rest =>
      { self with
        objects := [Obj.wire (planarUnionCore w0 (w1 :: rest))]
        pendingWires := [planarUnionCore w0 (w1 :: rest)] }
  | _ => self

/-- The Wire Composer algorithm exactly as spec section 4.3 states it, for an
arbitrary positive extrusion distance `d`: (1) take the common plane's normal
from the first wire; (2) extrude every input wire by the equal distance `d`
along that normal into solids; (3) take the 3D boolean union of all resulting
solids; (4) select the union solid's face lying in the original base plane,
i.e. the face minimal along the extrude direction; (5) return that face's
wires.  Defined for two or more input wires, per the spec's contract. -/
def specPlanarUnion (d : ℝ) (ws : List Wire) : Option Wire :=
  match ws with
  | w0 :: w1 :: rest =>
      let extrude_direction := w0.normal
      let solids := (w0 :: w1 :: rest).map (fun w => extrudeWire w d)
      match solids with
      | s0 :: srest =>
          let fused := srest.foldl fuseSolids s0
          some (faceWires (selectFaceMinMax extrude_direction false fused))
      | [] => none
  | _ => none

/-- All wires in the list lie in the plane of `w0`. -/
def coplanarWith (w0 : Wire) (ws : List Wire) : Prop :=
  ∀ w ∈ ws, w.normal = w0.normal ∧ w.height = w0.height

/-- Wires used by the concrete witness workplanes: two coplanar unit-ish
rectangles in the XY plane. -/
def witWireA : Wire := ⟨(0, 0, 1), 0, Set.Icc 0 2 ×ˢ Set.Icc 0 2⟩

def witWireB : Wire := ⟨(0, 0, 1), 0, Set.Icc 1 3 ×ˢ Set.Icc 0 2⟩

def witWireInner : Wire := ⟨(0, 0, 1), 0, Set.Icc 0 1 ×ˢ Set.Icc 0 1⟩

/-- Measures of the plate sub-shape of the X-Mount plug
(src/XMount/xmount_plug.py lines 390-405). -/
structure PlateMeasures where
  width : ℚ
  depth : ℚ
  height : ℚ
  slot_width : ℚ
  slot_depth : ℚ
  slot_width_pos : ℚ
  corner_radius : ℚ
  chamfer : ℚ
  deriving DecidableEq, Repr

/-- Measures of the cutout sub-shape (lines 406-412). -/
structure CutoutMeasures where
  width_1 : ℚ
  width_2 : ℚ
  depth : ℚ
  height : ℚ
  corner_radius : ℚ
  deriving DecidableEq, Repr

/-- Measures of the upper stem sub-shape (lines 413-420). -/
structure UpperStemMeasures where
  depth_pos : ℚ
  width : ℚ
  upper_depth : ℚ
  lower_depth : ℚ
  height : ℚ
  corner_chamfer : ℚ
  deriving DecidableEq, Repr

/-- Measures of the lower stem sub-shape (lines 421-430). -/
structure LowerStemMeasures where
  depth_pos : ℚ
  width : ℚ
  depth : ℚ
  height : ℚ
  corner_chamfer : ℚ
  deriving DecidableEq, Repr

/-- Measures of the clip sub-shape (lines 431-452).  `depth_pos` is not part
of the configuration literal: it is a dynamic attribute first created by the
derived-measure write `m.clip.depth_pos = 0.5 * m.plate.depth` in
`XMountPlug.__init__`, so it is an optional field that is absent (`none`) in
the input tree. -/
structure ClipMeasures where
  width : ℚ
  thickness : ℚ
  chamfer : ℚ
  height_pos : ℚ
  straight_depth : ℚ
  lever_length : ℚ
  lever_angle : ℚ
  ridge_width : ℚ
  ridge_height : ℚ
  ridge_top_depth : ℚ
  ridge_base_depth : ℚ
  depth_pos : Option ℚ
  deriving DecidableEq, Repr

/-- The nested measure tree handed to `XMountPlug` (the `measures`
SimpleNamespace literal of src/XMount/xmount_plug.py lines 389-453). -/
structure XMountMeasures where
  plate : PlateMeasures
  cutout : CutoutMeasures
  upper_stem : UpperStemMeasures
  lower_stem : LowerStemMeasures
  clip : ClipMeasures
  deriving DecidableEq, Repr

/-- The module-level measures literal of src/XMount/xmount_plug.py
lines 389-453. -/
def xmountDefaultMeasures : XMountMeasures :=
  { plate :=
      { width := 20.40, depth := 22.20, height := 1.93, slot_width := 1.30
        slot_depth := 8.25, slot_width_pos := 2.55, corner_radius := 2.80
        chamfer := 0.60 }
    cutout :=
      { width_1 := 10.00, width_2 := 7.40, depth := 10.50, height := 3.75
        corner_radius := 2.80 }
    upper_stem :=
      { depth_pos := 0.00, width := 13.85, upper_depth := 19.30
        lower_depth := 15.50, height := 2.97, corner_chamfer := 2.50 }
    lower_stem :=
      { depth_pos := 0.00, width := 20.40, depth := 15.50, height := 5.70
        corner_chamfer := 3.00 }
    clip :=
      { width := 20.40, thickness := 2.30, chamfer := 0.80, height_pos := 4.90
        straight_depth := 7.25, lever_length := 15.00, lever_angle := 45
        ridge_width := 13.50, ridge_height := 2.30, ridge_top_depth := 1.50
        ridge_base_depth := 4.1, depth_pos := none } }

/-- First derived-measure write of `XMountPlug.__init__` (line 174):
`m.clip.depth_pos = 0.5 * m.plate.depth`. -/
def writeClipDepthPos (m : XMountMeasures) : XMountMeasures :=
  { m with clip := { m.clip with depth_pos := some (1/2 * m.plate.depth) } }

/-- Second derived-measure write of `XMountPlug.__init__` (line 175):
`m.clip.straight_depth += m.plate.depth - m.clip.depth_pos`.  By this point
`depth_pos` has been set by the previous statement; reading the attribute is
modelled by `Option.getD` with an arbitrary default. -/
def writeClipStraightDepth (m : XMountMeasures) : XMountMeasures :=
  { m with clip :=
      { m.clip with straight_depth :=
          m.clip.straight_depth + (m.plate.depth - m.clip.depth_pos.getD 0) } }

/-- The Derived-Measure Pass performed by `XMountPlug.__init__`
(src/XMount/xmount_plug.py lines 171-175, identical in
src/MolleMount/xmount_plug.py lines 108-112), as a pure function on a
measure tree: the two sequential attribute writes. -/
def xmountDerive (m : XMountMeasures) : XMountMeasures :=
  writeClipStraightDepth (writeClipDepthPos m)

/-- A Python heap fragment holding measure trees: object identity matters for
the mutation claims, so measure objects live at addresses. -/
abbrev Store := List (ℕ × XMountMeasures)

/-- Attribute read through a reference: first binding of the address. -/
def storeGet (s : Store) (a : ℕ) : Option XMountMeasures :=
  match s with
  | [] => none
  | (k, v) :: rest => if k = a then some v else storeGet rest a

/-- In-place mutation of the object at address `a`: every binding keeps its
address, the value at `a` is replaced by `f` of it. -/
def storeModify : Store → ℕ → (XMountMeasures → XMountMeasures) → Store
  | [], _, _ => []
  | (k, v) :: rest, a, f => (k, if k = a then f v else v) :: storeModify rest a f

/-- An address not yet used by any object of the store, as allocated by
`copy.deepcopy`. -/
def freshAddr (s : Store) : ℕ :=
  (s.map Prod.fst).foldr max 0 + 1

/-- The `XMountPlug.__init__` steps that touch the measures object
(src/XMount/xmount_plug.py lines 165-179; same code in
src/MolleMount/xmount_plug.py lines 102-116): `self.measures =
copy.deepcopy(measures)` allocates an independent copy of the caller's tree,
and the two derived-measure writes then mutate that copy in place.
`self.build()` only reads `self.measures`.  Returns the heap after
construction and the address of `self.measures`; `none` if the caller's
reference is dangling. -/
def xmountPlugInit (store : Store) (measuresAddr : ℕ) : Option (Store × ℕ) :=
  match storeGet store measuresAddr with
  | none => none
  | some m0 =>
      let selfAddr := freshAddr store
      let store1 := (selfAddr, m0) :: store
      let store2 := storeModify store1 selfAddr writeClipDepthPos
      let store3 := storeModify store2 selfAddr writeClipStraightDepth
      some (store3, selfAddr)

/-- Boolean composition structure of a Part Assembly build: primitives are
extruded or boxed sub-shapes (identified by name, with their chamfer, fillet
and translate modifiers folded into `modify` nodes), composed by kernel
boolean union and cut. -/
inductive CSG where
  | prim (name : String)
  | modify (op : String) (a : CSG)
  | union (a b : CSG)
  | cut (target cutter : CSG)
  deriving DecidableEq, Repr

/-- Whether a composition tree contains a boolean cut anywhere. -/
def hasCut : CSG → Bool
  | .prim _ => false
  | .modify _ a => hasCut a
  | .union a b => hasCut a || hasCut b
  | .cut _ _ => true

/-- Whether a composition tree contains a boolean union anywhere. -/
def hasUnion : CSG → Bool
  | .prim _ => false
  | .modify _ a => hasUnion a
  | .union _ _ => true
  | .cut a b => hasUnion a || hasUnion b

/-- Every boolean cut in the build happens before any union touches the
result: no union node consumes a solid whose construction involved a cut.
This is the order the claim asserts (cuts strictly after all unions, unions
never applied to an already-cut solid). -/
def unionsNeverConsumeCuts : CSG → Bool
  | .prim _ => true
  | .modify _ a => unionsNeverConsumeCuts a
  | .union a b =>
      !hasCut a && !hasCut b && unionsNeverConsumeCuts a && unionsNeverConsumeCuts b
  | .cut a b => unionsNeverConsumeCuts a && unionsNeverConsumeCuts b

/-- No boolean cut is applied to a solid whose construction involved a union:
cuts act on individual sub-shapes, unions compose the (possibly already-cut)
sub-shapes afterwards. -/
def noCutOnUnioned : CSG → Bool
  | .prim _ => true
  | .modify _ a => noCutOnUnioned a
  | .union a b => noCutOnUnioned a && noCutOnUnioned b
  | .cut a b => !hasUnion a && !hasUnion b && noCutOnUnioned a && noCutOnUnioned b

/-- The cutout solid of `XMountPlug.build` (src/XMount/xmount_plug.py lines
224-242): a closed polyline extrusion with a corner fillet. -/
def xmountCutout : CSG :=
  .modify "fillet_back_corners" (.prim "cutout_extrusion")

/-- The plate solid (lines 185-222): polyline extrusion with chamfers and
fillets, no boolean cut or union. -/
def xmountPlate : CSG :=
  .modify "chamfer_upper_edges"
    (.modify "fillet_plate_corners"
      (.modify "fillet_cutout_corners"
        (.modify "chamfer_lower_back_edge" (.prim "plate_extrusion"))))

/-- The upper stem solid (lines 244-262): a translated box from which the
cutout is boolean-cut, then chamfered. -/
def xmountUpperStem : CSG :=
  .modify "chamfer_lower_back_edge"
    (.modify "chamfer_vertical_back_edges"
      (.cut (.modify "translate" (.prim "upper_stem_box")) xmountCutout))

/-- The lower stem solid (lines 264-276): a translated box from which the
cutout is boolean-cut, then chamfered. -/
def xmountLowerStem : CSG :=
  .modify "chamfer_side_corners"
    (.cut (.modify "translate" (.prim "lower_stem_box")) xmountCutout)

/-- The clip (lines 285-348): an extrusion of combined wires, chamfered, with
the ridge solid added onto the same stack (CadQuery `add`, not a boolean
operation); the final `.union(clip)` of the build fuses both stack solids
into the assembly, which is modelled by the union node below. -/
def xmountClipBody : CSG :=
  .modify "chamfer_clip_back"
    (.modify "chamfer_clip_sides" (.prim "clip_extrusion"))

def xmountClipRidge : CSG :=
  .modify "chamfer_ridge_top" (.prim "ridge_extrusion")

/-- The full boolean composition of `XMountPlug.build` (lines 350-355):
`xmount_plug = plate.union(upper_stem).union(lower_stem).union(clip)`. -/
def xmountPlugCSG : CSG :=
  .union
    (.union (.union xmountPlate xmountUpperStem) xmountLowerStem)
    (.union xmountClipBody xmountClipRidge)

/-- Conversion from radians to degrees, Python `math.degrees`. -/
noncomputable def degreesOf (x : ℝ) : ℝ :=
  x * 180 / Real.pi

/-- Two-argument arctangent, Python `math.atan2(y, x)`: the angle of the
point `(x, y)`, equal to `arctan (y / x)` on the right half plane. -/
noncomputable def atan2 (y x : ℝ) : ℝ :=
  if 0 < x then Real.arctan (y / x)
  else if x < 0 then
    (if 0 ≤ y then Real.arctan (y / x) + Real.pi else Real.arctan (y / x) - Real.pi)
  else
    (if 0 < y then Real.pi / 2 else if y < 0 then -(Real.pi / 2) else 0)

/-- Derived slope angle of src/FootBlock.py line 53:
`m.slope_angle = degrees(atan((m.back_height - m.front_height) / m.depth))`. -/
noncomputable def footBlockSlopeAngle (front_height back_height depth : ℝ) : ℝ :=
  degreesOf (Real.arctan ((back_height - front_height) / depth))

/-- Derived slope angle of src/footblock/foot_block.py line 60:
`m.block.slope_angle = degrees(asin((m.block.back_height -
m.block.front_height) / m.block.upper_depth))`.  The comment on line 59 notes
that `upper_depth` is measured along the sloped surface, not along the axis
direction, hence `asin` and not `atan`. -/
noncomputable def footBlockDirSlopeAngle (front_height back_height upper_depth : ℝ) : ℝ :=
  degreesOf (Real.arcsin ((back_height - front_height) / upper_depth))

/-- The axis-aligned box solid `cq.Workplane("XY").box(w, d,
h).translate((0.5 * w, 0, 0.5 * h))` of src/lidfixer/lid_fixer.py lines
30-32 (same in src/BoxLidFixation.py lines 26-28), with the depth axis
recentred at 0 for convenience: the box `[0, w] × [-d/2, d/2] × [0, h]`
shifted here to `[0, w] × [0, d] × [0, h]`, a plain translation that changes
no face area and no height. -/
def boxSet (w d h : ℝ) : Set (ℝ × ℝ × ℝ) :=
  {p | p.1 ∈ Set.Icc 0 w ∧ p.2.1 ∈ Set.Icc 0 d ∧ p.2.2 ∈ Set.Icc 0 h}

/-- Distance from `x` to the interval `[a, b]` along one axis. -/
def segGap (a b x : ℝ) : ℝ :=
  max (a - x) (max (x - b) 0)

/-- Modelled from the spec: the boundary-representation fillet operation of
the external CAD kernel (spec section 6 lists `fillet` among the kernel's
feature operations, and the glossary defines a fillet as a rounded
modification of a solid along a selected edge; the kernel itself is out of
scope and not in src/).  `model.faces(">Z").edges().fillet(r)` in
src/lidfixer/lid_fixer.py line 34 rounds the whole edge loop of the box's
top face with a rolling ball of radius `r`: every box point of height at
most `h - r` is kept, and a point above that height is kept when its
horizontal distance to the top-face rectangle inset by `r` is at most the
fillet circle's horizontal reach at that height, i.e. when
`segGap r (w-r) x ^ 2 + segGap r (d-r) y ^ 2 ≤ r ^ 2 - (z - (h - r)) ^ 2`,
the corner blends being spherical patches. -/
def filletTopFace (w d h r : ℝ) : Set (ℝ × ℝ × ℝ) :=
  {p | p ∈ boxSet w d h ∧
    (p.2.2 ≤ h - r ∨
      segGap r (w - r) p.1 ^ 2 + segGap r (d - r) p.2.1 ^ 2 ≤
        r ^ 2 - (p.2.2 - (h - r)) ^ 2)}

/-- The top face of the filleted solid: the horizontal cross-section at the
full height `h`. -/
def topFaceRegion (w d h r : ℝ) : Set Pt2 :=
  {q | ((q.1, q.2, h) : ℝ × ℝ × ℝ) ∈ filletTopFace w d h r}

/-- CadQuery `Workplane::tag(name)` as used by
src/footblock/foot_block.py lines 75 and 100: records the current frame in
the shared construction context under the given name, without altering the
active construction state. -/
def tag (name : String) (self : Workplane) : Workplane :=
  { self with tags := (name, self.plane) :: self.tags }

/-- Lookup of a tag in the construction context; the most recent record of a
name wins, matching overwrite semantics of the tags dictionary. -/
def findTag : List (String × Frame) → String → Option Frame
  | [], _ => none
  | (n, f) :: rest, name => if n = name then some f else findTag rest name

/-- CadQuery `Workplane::workplaneFromTagged(name)` as used by
src/footblock/foot_block.py lines 95 and 110: restores the frame recorded
under `name` as the new active frame (via `copyWorkplane`), and fails with a
tag-not-found error when the name was never recorded. -/
def workplaneFromTagged (name : String) (self : Workplane) : Except String Workplane :=
  match findTag self.tags name with
  | some f => Except.ok { self with plane := f }
  | none => Except.error ("tag not found: " ++ name)

/-- Construction steps unrelated to tagging, as they occur between `tag` and
`workplaneFromTagged` in src/footblock/foot_block.py (`rect`, `transformed`,
`loft`, `fillet`, `cutBlind`, `cut`): a step either replaces the active frame
by an arbitrary new frame (`transformed`, `workplane`, `copyWorkplane`), or
edits the object stack in an arbitrary way (sketches, lofts, fillets, cuts),
or edits the pending wires.  None of these CadQuery operations writes to
`ctx.tags`; only `tag` itself does. -/
inductive BuildStep where
  | setPlane (t : Frame → Frame)
  | editStack (g : List Obj → List Obj)
  | editPending (g : List Wire → List Wire)

/-- Effect of one unrelated construction step on the workplane. -/
def applyStep (self : Workplane) (s : BuildStep) : Workplane :=
  match s with
  | .setPlane t => { self with plane := t self.plane }
  | .editStack g => { self with objects := g self.objects }
  | .editPending g => { self with pendingWires := g self.pendingWires }

/-- The two fields of the LensCover measure tree that `profile_wire` reads
(src/lenscover/lens_cover.py lines 66-67 `thickness = 1.6` and 63
`debug = True`). -/
structure LensCoverMeasures where
  thickness : ℝ
  debug : Bool

/-- Region of `rect(a, b)` sketched centered on the current point: the
centered `a × b` rectangle. -/
def centeredRect (a b : ℝ) : Set Pt2 :=
  Set.Icc (-(a / 2)) (a / 2) ×ˢ Set.Icc (-(b / 2)) (b / 2)

/-- Region translated by the vector `v` (`.translate(...)` restricted to the
sketch plane, as all translates in `profile_wire` are). -/
def shiftRegion (v : Pt2) (s : Set Pt2) : Set Pt2 :=
  {p | (p.1 - v.1, p.2 - v.2) ∈ s}

/-- Region rotated by `angleDeg` degrees about the point `c` of the sketch
plane: `.rotate((1, 0, zc), (-1, 0, zc), angleDeg)` rotates about the
x-parallel axis through plane point `c`, which acts on the YZ sketch plane
as the planar rotation below. -/
def rotateRegionAbout (angleDeg : ℝ) (c : Pt2) (s : Set Pt2) : Set Pt2 :=
  {p | ∃ q ∈ s,
    p.1 - c.1 = Real.cos (angleDeg * Real.pi / 180) * (q.1 - c.1) +
      Real.sin (angleDeg * Real.pi / 180) * (q.2 - c.2) ∧
    p.2 - c.2 = -(Real.sin (angleDeg * Real.pi / 180)) * (q.1 - c.1) +
      Real.cos (angleDeg * Real.pi / 180) * (q.2 - c.2)}

/-- Covering outer element of the profile (src/lenscover/lens_cover.py lines
179-183): a `thickness × height` rectangle translated by
`(0, -0.5 * thickness, -0.5 * height)` on the YZ workplane. -/
def lensOuterWire (thickness height : ℝ) : Wire :=
  ⟨(1, 0, 0), 0,
    shiftRegion (-(0.5 * thickness), -(0.5 * height)) (centeredRect thickness height)⟩

/-- Horizontal element of the hook including infill (lines 185-189). -/
def lensHookWire (thickness hook_depth hook_height_infill : ℝ) : Wire :=
  ⟨(1, 0, 0), 0,
    shiftRegion
      (-(0.5 * (hook_depth + 2 * thickness)), -(0.5 * (thickness + hook_height_infill)))
      (centeredRect (hook_depth + 2 * thickness) (thickness + hook_height_infill))⟩

/-- Vertical element of the hook with the tip (lines 191-197); the factor
0.499 instead of 0.5 works around the kernel's shared-corner union
limitation, as the source comment on lines 194-195 explains. -/
def lensHookTipWire (thickness hook_depth hook_height : ℝ) : Wire :=
  ⟨(1, 0, 0), 0,
    shiftRegion (-hook_depth - 1.5 * thickness, -(0.499 * (hook_height + thickness)))
      (centeredRect thickness (hook_height + thickness))⟩

/-- Overhang at the bottom of the profile (lines 199-206): a rectangle
translated below the profile, then rotated by `overhang_angle` about the
x-parallel axis through height `-height`. -/
def lensOverhangWire (thickness height overhang_angle overhang_size : ℝ) : Wire :=
  ⟨(1, 0, 0), 0,
    rotateRegionAbout overhang_angle (0, -height)
      (shiftRegion (-(0.5 * thickness), -height - 0.499 * overhang_size)
        (centeredRect thickness overhang_size))⟩

/-- `LensCover.profile_wire` (src/lenscover/lens_cover.py lines 161-217): a
Sub-Shape Builder that sketches the four profile rectangles on a YZ
workplane, sends them to the pending wires, unions them with
`union_pending`, and returns `ctx.pendingWires[0]`.  Alongside the returned
wire, the list of `show_object` emissions to the visualization sink is
returned: only when the measure tree's debug flag is set and a debug name
was supplied does the wire get emitted under that caller-supplied name
(lines 213-215).  Python indexing `[0]` of an empty list would raise, hence
the `Option`. -/
def profile_wire (m : LensCoverMeasures)
    (height hook_depth hook_height hook_height_infill overhang_angle overhang_size : ℝ)
    (debug_name : Option String) : Option (Wire × List (String × Wire)) :=
  let wp : Workplane :=
    ⟨yzFrame, [],
      [lensOuterWire m.thickness height,
       lensHookWire m.thickness hook_depth hook_height_infill,
       lensHookTipWire m.thickness hook_depth hook_height,
       lensOverhangWire m.thickness height overhang_angle overhang_size], []⟩
  let unioned := union_pending wp
  match unioned.pendingWires with
  | wire :: _ =>
      some (wire,
        match m.debug, debug_name with
        | true, some n => [(n, wire)]
        | _, _ => [])
  | [] => none

/-- A bare XY workplane used by concrete witnesses. -/
def witBaseWp : Workplane := ⟨xyFrame, [], [], []⟩

/-- A concrete run of unrelated construction steps between tagging and
restoring, mirroring the footblock sequence (sketch steps, a plane change,
pending-wire edits). -/
def witSteps : List BuildStep :=
  [BuildStep.editStack (fun _ => []),
   BuildStep.setPlane (fun f => ⟨(0, 0, 5), f.xDir, f.normal⟩),
   BuildStep.editPending (fun p => p)]

/-- The combined profile wire for the concrete lens-cover measures
(thickness 1.6, lens height 35.3, hook depth 4.6, hook height 8.0, default
infill 0.1, start overhang angle 45 and size 7.0). -/
def lensWitnessWire : Wire :=
  planarUnionCore (lensOuterWire 1.6 35.3)
    [lensHookWire 1.6 4.6 0.1,
     lensHookTipWire 1.6 4.6 8.0,
     lensOverhangWire 1.6 35.3 45 7.0]

lemma foldl_fuseSolids_normal (s0 : Solid) (ss : List Solid) :
    (ss.foldl fuseSolids s0).normal = s0.normal := by
  induction ss generalizing s0 with
  | nil => rfl
  | cons t ts ih => simpa [List.foldl, fuseSolids] using ih (fuseSolids s0 t)

lemma foldl_fuseSolids_lo (s0 : Solid) (ss : List Solid) :
    (ss.foldl fuseSolids s0).lo = s0.lo := by
  induction ss generalizing s0 with
  | nil => rfl
  | cons t ts ih => simpa [List.foldl, fuseSolids] using ih (fuseSolids s0 t)

lemma foldl_fuseSolids_region (s0 : Solid) (ss : List Solid) :
    (ss.foldl fuseSolids s0).region = s0.region ∪ ⋃ s ∈ ss, s.region := by
  induction ss generalizing s0 with
  | nil => simp
  | cons t ts ih =>
      rw [List.foldl_cons, ih (fuseSolids s0 t)]
      simp [fuseSolids, Set.union_assoc]

/-- The combined wire: it lies in the first wire's plane and encloses the
union of the enclosed regions of all the input wires. -/
lemma planarUnionCore_eq (w0 : Wire) (rest : List Wire) :
    planarUnionCore w0 rest =
      ⟨w0.normal, w0.height, w0.region ∪ ⋃ w ∈ rest, w.region⟩ := by
  unfold planarUnionCore faceWires selectFaceMinMax
  simp only [if_neg Bool.false_ne_true]
  have hn := foldl_fuseSolids_normal (extrudeWire w0 1) (rest.map (fun w => extrudeWire w 1))
  have hl := foldl_fuseSolids_lo (extrudeWire w0 1) (rest.map (fun w => extrudeWire w 1))
  have hr := foldl_fuseSolids_region (extrudeWire w0 1) (rest.map (fun w => extrudeWire w 1))
  rw [Wire.mk.injEq]
  refine ⟨hn, hl, ?_⟩
  rw [hr]
  simp [extrudeWire]

/-- The spec algorithm's result does not depend on the choice of the
extrusion distance: the selected face is the bottom cap of the fused prism,
which carries the original plane position and the fused cross-section. -/
lemma specPlanarUnion_eq (d : ℝ) (w0 w1 : Wire) (rest : List Wire) :
    specPlanarUnion d (w0 :: w1 :: rest) =
      some ⟨w0.normal, w0.height, w0.region ∪ ⋃ w ∈ w1 :: rest, w.region⟩ := by
  unfold specPlanarUnion faceWires selectFaceMinMax
  simp only [List.map_cons, if_neg Bool.false_ne_true]
  have hn := foldl_fuseSolids_normal (extrudeWire w0 d) ((w1 :: rest).map (fun w => extrudeWire w d))
  have hl := foldl_fuseSolids_lo (extrudeWire w0 d) ((w1 :: rest).map (fun w => extrudeWire w d))
  have hr := foldl_fuseSolids_region (extrudeWire w0 d) ((w1 :: rest).map (fun w => extrudeWire w d))
  simp only [List.map_cons] at hn hl hr
  rw [Option.some.injEq, Wire.mk.injEq]
  refine ⟨hn, hl, ?_⟩
  rw [hr]
  simp [extrudeWire]

lemma list_biUnion_cons (w : Wire) (ws : List Wire) :
    (⋃ x ∈ w :: ws, x.region) = w.region ∪ ⋃ x ∈ ws, x.region := by
  simp [List.mem_cons, Set.iUnion_or, Set.iUnion_union_distrib, Set.iUnion_iUnion_eq_left]

/-- C1: the Wire Composer (`combine_wires` / `union_pending`), given two or
more coplanar wires, follows exactly the spec's algorithm: it takes the common
plane's normal from the first wire, extrudes every input wire by an equal
positive distance along that normal into a solid (the result being the same
for every positive distance, the code uses 1), takes the 3D boolean union of
all those solids, selects the union's face lying in the original base plane —
the face minimal along the extrude direction — and returns that face's wires,
which still lie in the original plane and enclose the union of the input
regions. -/
theorem wire_composer_follows_spec_algorithm
    (wp wpu : Workplane) (w0 w1 p0 p1 : Wire) (rest prest : List Wire)
    (hs : stackWires wp = w0 :: w1 :: rest)
    (_hcop : coplanarWith w0 (w0 :: w1 :: rest))
    (hp : wpu.pendingWires = p0 :: p1 :: prest)
    (_hcopp : coplanarWith p0 (p0 :: p1 :: prest)) :
    (∃ u : Wire,
      specPlanarUnion 1 (stackWires wp) = some u ∧
      combine_wires wp = ⟨xyFrame, [Obj.wire u], [], []⟩ ∧
      u.normal = w0.normal ∧ u.height = w0.height ∧
      u.region = ⋃ w ∈ stackWires wp, w.region ∧
      ∀ d : ℝ, 0 < d → specPlanarUnion d (stackWires wp) = some u) ∧
    (∃ u : Wire,
      specPlanarUnion 1 wpu.pendingWires = some u ∧
      union_pending wpu = { wpu with objects := [Obj.wire u], pendingWires := [u] } ∧
      u.normal = p0.normal ∧ u.height = p0.height ∧
      u.region = ⋃ w ∈ wpu.pendingWires, w.region ∧
      ∀ d : ℝ, 0 < d → specPlanarUnion d wpu.pendingWires = some u) := by
  constructor
  · refine ⟨⟨w0.normal, w0.height, w0.region ∪ ⋃ w ∈ w1 :: rest, w.region⟩, ?_, ?_, rfl, rfl, ?_, ?_⟩
    · rw [hs, specPlanarUnion_eq]
    · unfold combine_wires
      rw [hs]
      simp only [planarUnionCore_eq]
    · rw [hs]
      simp [list_biUnion_cons]
    · intro d _
      rw [hs, specPlanarUnion_eq]
  · refine ⟨⟨p0.normal, p0.height, p0.region ∪ ⋃ w ∈ p1 :: prest, w.region⟩, ?_, ?_, rfl, rfl, ?_, ?_⟩
    · rw [hp, specPlanarUnion_eq]
    · unfold union_pending
      rw [hp]
      simp only [planarUnionCore_eq]
    · rw [hp]
      simp [list_biUnion_cons]
    · intro d _
      rw [hp, specPlanarUnion_eq]

/-- Witness for C1: the algorithm run on a concrete workplane holding two
overlapping coplanar rectangles, and on a concrete workplane with the same
two rectangles pending. -/
theorem wire_composer_follows_spec_algorithm_witness :
    (stackWires ⟨xyFrame, [Obj.wire witWireA, Obj.wire witWireB], [], []⟩ =
        witWireA :: witWireB :: [] ∧
      coplanarWith witWireA (witWireA :: witWireB :: []) ∧
      (⟨xyFrame, [], [witWireA, witWireB], []⟩ : Workplane).pendingWires =
        witWireA :: witWireB :: [] ∧
      coplanarWith witWireA (witWireA :: witWireB :: [])) ∧
    (∃ u : Wire,
      specPlanarUnion 1 (stackWires ⟨xyFrame, [Obj.wire witWireA, Obj.wire witWireB], [], []⟩) = some u ∧
      combine_wires ⟨xyFrame, [Obj.wire witWireA, Obj.wire witWireB], [], []⟩ =
        ⟨xyFrame, [Obj.wire u], [], []⟩ ∧
      u.normal = witWireA.normal ∧ u.height = witWireA.height ∧
      u.region = ⋃ w ∈ stackWires ⟨xyFrame, [Obj.wire witWireA, Obj.wire witWireB], [], []⟩, w.region ∧
      ∀ d : ℝ, 0 < d →
        specPlanarUnion d (stackWires ⟨xyFrame, [Obj.wire witWireA, Obj.wire witWireB], [], []⟩) = some u) ∧
    (∃ u : Wire,
      specPlanarUnion 1 (⟨xyFrame, [], [witWireA, witWireB], []⟩ : Workplane).pendingWires = some u ∧
      union_pending ⟨xyFrame, [], [witWireA, witWireB], []⟩ =
        { (⟨xyFrame, [], [witWireA, witWireB], []⟩ : Workplane) with
            objects := [Obj.wire u], pendingWires := [u] } ∧
      u.normal = witWireA.normal ∧ u.height = witWireA.height ∧
      u.region = ⋃ w ∈ (⟨xyFrame, [], [witWireA, witWireB], []⟩ : Workplane).pendingWires, w.region ∧
      ∀ d : ℝ, 0 < d →
        specPlanarUnion d (⟨xyFrame, [], [witWireA, witWireB], []⟩ : Workplane).pendingWires = some u) := by
  have hcop : coplanarWith witWireA (witWireA :: witWireB :: []) := by
    intro w hw
    simp only [List.mem_cons, List.not_mem_nil, or_false] at hw
    rcases hw with rfl | rfl
    · exact ⟨rfl, rfl⟩
    · exact ⟨rfl, rfl⟩
  have hs : stackWires ⟨xyFrame, [Obj.wire witWireA, Obj.wire witWireB], [], []⟩ =
      witWireA :: witWireB :: [] := rfl
  have hmain := wire_composer_follows_spec_algorithm
    ⟨xyFrame, [Obj.wire witWireA, Obj.wire witWireB], [], []⟩
    ⟨xyFrame, [], [witWireA, witWireB], []⟩
    witWireA witWireB witWireA witWireB [] [] hs hcop rfl hcop
  exact ⟨⟨hs, hcop, rfl, hcop⟩, hmain⟩

/-- C8: the Wire Composer is idempotent under a no-op overlap.  For a closed
planar wire `W`, composing `W` with an identical copy of itself or with a
wire `V` entirely contained inside `W` returns a wire equal, in the
enclosed-region sense, to `W`'s outline — for both `combine_wires` and
`union_pending`. -/
theorem wire_composer_idempotent_on_contained
    (wp wpu : Workplane) (W V : Wire)
    (hs : stackWires wp = [W, V])
    (_hnorm : V.normal = W.normal) (_hheight : V.height = W.height)
    (hsub : V.region ⊆ W.region)
    (hp : wpu.pendingWires = [W, V]) :
    combine_wires wp = ⟨xyFrame, [Obj.wire W], [], []⟩ ∧
    union_pending wpu =
      { wpu with objects := [Obj.wire W], pendingWires := [W] } := by
  have hcore : planarUnionCore W [V] = W := by
    rw [planarUnionCore_eq]
    have : W.region ∪ ⋃ w ∈ [V], w.region = W.region := by
      simp only [List.mem_singleton, Set.iUnion_iUnion_eq_left]
      exact Set.union_eq_self_of_subset_right hsub
    rw [this]
  constructor
  · unfold combine_wires
    rw [hs]
    simp only [hcore]
  · unfold union_pending
    rw [hp]
    simp only [hcore]

/-- Witness for C8: composing a concrete square wire with an identical copy of
itself returns that same wire, on the stack and among the pending wires. -/
theorem wire_composer_idempotent_on_contained_witness :
    (stackWires ⟨xyFrame, [Obj.wire witWireA, Obj.wire witWireA], [], []⟩ = [witWireA, witWireA] ∧
      witWireA.region ⊆ witWireA.region) ∧
    combine_wires ⟨xyFrame, [Obj.wire witWireA, Obj.wire witWireA], [], []⟩ =
      ⟨xyFrame, [Obj.wire witWireA], [], []⟩ ∧
    union_pending ⟨xyFrame, [], [witWireA, witWireA], []⟩ =
      { (⟨xyFrame, [], [witWireA, witWireA], []⟩ : Workplane) with
          objects := [Obj.wire witWireA], pendingWires := [witWireA] } := by
  refine ⟨⟨rfl, Set.Subset.refl _⟩, ?_⟩
  exact wire_composer_idempotent_on_contained
    ⟨xyFrame, [Obj.wire witWireA, Obj.wire witWireA], [], []⟩
    ⟨xyFrame, [], [witWireA, witWireA], []⟩
    witWireA witWireA rfl rfl rfl (Set.Subset.refl _) rfl

/-- C10: with fewer than two wires on the stack, `combine_wires` is the
identity on the receiver workplane, and with fewer than two pending wires
`union_pending` is the identity on the receiver workplane; in both cases no
extrusion and no boolean union is performed (the guard `if len(wires) < 2:
return self` short-circuits the whole body). -/
theorem wire_composer_identity_below_two_wires
    (wp wpu : Workplane)
    (hs : (stackWires wp).length < 2)
    (hp : wpu.pendingWires.length < 2) :
    combine_wires wp = wp ∧ union_pending wpu = wpu := by
  constructor
  · unfold combine_wires
    cases h : stackWires wp with
    | nil => rfl
    | cons a l =>
        cases l with
        | nil => rfl
        | cons b l2 => rw [h] at hs; simp only [List.length_cons] at hs; omega
  · unfold union_pending
    cases h : wpu.pendingWires with
    | nil => rfl
    | cons a l =>
        cases l with
        | nil => rfl
        | cons b l2 => rw [h] at hp; simp only [List.length_cons] at hp; omega

/-- Witness for C10: a workplane holding a single wire on its stack and a
workplane with a single pending wire are returned unchanged. -/
theorem wire_composer_identity_below_two_wires_witness :
    ((stackWires ⟨xyFrame, [Obj.wire witWireA], [], []⟩).length < 2 ∧
      ((⟨xyFrame, [], [witWireA], []⟩ : Workplane).pendingWires).length < 2) ∧
    combine_wires ⟨xyFrame, [Obj.wire witWireA], [], []⟩ =
      ⟨xyFrame, [Obj.wire witWireA], [], []⟩ ∧
    union_pending ⟨xyFrame, [], [witWireA], []⟩ = ⟨xyFrame, [], [witWireA], []⟩ := by
  refine ⟨⟨by simp [stackWires], by simp⟩, ?_⟩
  exact wire_composer_identity_below_two_wires
    ⟨xyFrame, [Obj.wire witWireA], [], []⟩
    ⟨xyFrame, [], [witWireA], []⟩
    (by simp [stackWires]) (by simp)

lemma mem_le_foldr_max (k : ℕ) (ks : List ℕ) (h : k ∈ ks) : k ≤ ks.foldr max 0 := by
  induction ks with
  | nil => cases h
  | cons x l ih =>
      rcases List.mem_cons.mp h with rfl | hl
      · exact le_max_left _ _
      · exact le_trans (ih hl) (le_max_right _ _)

lemma storeGet_isSome_lt_freshAddr (s : Store) (a : ℕ) (m : XMountMeasures)
    (h : storeGet s a = some m) : a < freshAddr s := by
  have hmem : a ∈ s.map Prod.fst := by
    induction s with
    | nil => simp [storeGet] at h
    | cons kv rest ih =>
        rw [storeGet] at h
        by_cases hk : kv.1 = a
        · simp [hk]
        · rw [if_neg hk] at h
          simp [ih h]
  have := mem_le_foldr_max a (s.map Prod.fst) hmem
  unfold freshAddr
  omega

lemma storeGet_modify_ne (s : Store) (a b : ℕ) (f : XMountMeasures → XMountMeasures)
    (h : b ≠ a) : storeGet (storeModify s a f) b = storeGet s b := by
  induction s with
  | nil => rfl
  | cons kv rest ih =>
      obtain ⟨k, v⟩ := kv
      simp only [storeModify, storeGet]
      by_cases hkb : k = b
      · rw [if_pos hkb, if_pos hkb, if_neg (by rw [hkb]; exact fun e => h e)]
      · rw [if_neg hkb, if_neg hkb]
        exact ih

lemma storeGet_modify_self (s : Store) (a : ℕ) (f : XMountMeasures → XMountMeasures) :
    storeGet (storeModify s a f) a = (storeGet s a).map f := by
  induction s with
  | nil => rfl
  | cons kv rest ih =>
      obtain ⟨k, v⟩ := kv
      simp only [storeModify, storeGet]
      by_cases hk : k = a
      · rw [if_pos hk, if_pos hk, if_pos hk]
        rfl
      · rw [if_neg hk, if_neg hk]
        exact ih

lemma storeGet_cons_ne (kv : ℕ × XMountMeasures) (s : Store) (a : ℕ) (h : kv.1 ≠ a) :
    storeGet (kv :: s) a = storeGet s a := by
  rw [storeGet, if_neg h]

/-- What `xmountPlugInit` does: it requires the caller's reference to be
valid, leaves the object behind that reference untouched, and leaves the
derived tree at the freshly allocated `self.measures` address. -/
lemma xmountPlugInit_spec (store : Store) (addr : ℕ) (st' : Store) (sa : ℕ)
    (h : xmountPlugInit store addr = some (st', sa)) :
    ∃ m0, storeGet store addr = some m0 ∧
      sa = freshAddr store ∧
      addr ≠ sa ∧
      storeGet st' addr = storeGet store addr ∧
      storeGet st' sa = some (xmountDerive m0) := by
  unfold xmountPlugInit at h
  cases hget : storeGet store addr with
  | none => rw [hget] at h; cases h
  | some m0 =>
      rw [hget] at h
      simp only [Option.some.injEq, Prod.mk.injEq] at h
      obtain ⟨hst, hsa⟩ := h
      subst hsa
      subst hst
      have haddr : addr < freshAddr store := storeGet_isSome_lt_freshAddr store addr m0 hget
      have hne : addr ≠ freshAddr store := Nat.ne_of_lt haddr
      refine ⟨m0, rfl, rfl, hne, ?_, ?_⟩
      · rw [storeGet_modify_ne _ _ _ _ hne, storeGet_modify_ne _ _ _ _ hne]
        rw [storeGet_cons_ne _ _ _ (fun e => hne e.symm)]
        exact hget
      · rw [storeGet_modify_self, storeGet_modify_self]
        have hhd : storeGet ((freshAddr store, m0) :: store) (freshAddr store) = some m0 := by
          rw [storeGet, if_pos rfl]
        rw [hhd]
        rfl

/-- C9: constructing an `XMountPlug` never mutates the caller-supplied
measures object.  The constructor deep-copies the measures into a fresh
object before the derived-measure writes (the `clip.depth_pos` assignment and
the `clip.straight_depth` increment), so the tree behind the caller's
reference is equal before and after construction, and the derived writes land
only on the fresh copy. -/
theorem xmount_plug_init_preserves_caller_measures
    (store : Store) (measuresAddr : ℕ) (st' : Store) (selfAddr : ℕ)
    (h : xmountPlugInit store measuresAddr = some (st', selfAddr)) :
    storeGet st' measuresAddr = storeGet store measuresAddr ∧
    measuresAddr ≠ selfAddr ∧
    ∃ m0, storeGet store measuresAddr = some m0 ∧
      storeGet st' selfAddr = some (xmountDerive m0) := by
  obtain ⟨m0, hget, _, hne, hcaller, hself⟩ := xmountPlugInit_spec store measuresAddr st' selfAddr h
  exact ⟨hcaller, hne, m0, hget, hself⟩

/-- Witness for C9: constructing the plug from the module-level measures
literal at heap address 0 leaves the object at address 0 untouched and puts
the derived tree at the fresh address 1. -/
theorem xmount_plug_init_preserves_caller_measures_witness :
    xmountPlugInit [(0, xmountDefaultMeasures)] 0 =
      some ([(1, xmountDerive xmountDefaultMeasures), (0, xmountDefaultMeasures)], 1) ∧
    (storeGet [(1, xmountDerive xmountDefaultMeasures), (0, xmountDefaultMeasures)] 0 =
        storeGet [(0, xmountDefaultMeasures)] 0 ∧
      (0 : ℕ) ≠ 1 ∧
      ∃ m0, storeGet [(0, xmountDefaultMeasures)] 0 = some m0 ∧
        storeGet [(1, xmountDerive xmountDefaultMeasures), (0, xmountDefaultMeasures)] 1 =
          some (xmountDerive m0)) := by
  have h : xmountPlugInit [(0, xmountDefaultMeasures)] 0 =
      some ([(1, xmountDerive xmountDefaultMeasures), (0, xmountDefaultMeasures)], 1) := by
    rfl
  exact ⟨h, xmount_plug_init_preserves_caller_measures _ 0 _ 1 h⟩

/-- C5: the Derived-Measure Pass is deterministic and free of
cross-invocation side effects.  Derivation is a pure function (equal inputs
give equal derived trees), and constructing an `XMountPlug` twice from the
same measures object yields the same derived tree both times — in particular
the same derived `clip.straight_depth` and `clip.depth_pos`. -/
theorem derived_measure_pass_deterministic
    (store : Store) (addr : ℕ) (st1 st2 : Store) (a1 a2 : ℕ)
    (h1 : xmountPlugInit store addr = some (st1, a1))
    (h2 : xmountPlugInit st1 addr = some (st2, a2)) :
    (∀ m m' : XMountMeasures, m = m' → xmountDerive m = xmountDerive m') ∧
    storeGet st1 a1 = storeGet st2 a2 ∧
    (storeGet st1 a1).map (fun m => m.clip.straight_depth) =
      (storeGet st2 a2).map (fun m => m.clip.straight_depth) ∧
    (storeGet st1 a1).map (fun m => m.clip.depth_pos) =
      (storeGet st2 a2).map (fun m => m.clip.depth_pos) := by
  obtain ⟨m0, hget0, _, _, hcaller1, hself1⟩ := xmountPlugInit_spec store addr st1 a1 h1
  obtain ⟨m1, hget1, _, _, hcaller2, hself2⟩ := xmountPlugInit_spec st1 addr st2 a2 h2
  have hm : m1 = m0 :=
    Option.some.inj (hget1.symm.trans (hcaller1.trans hget0))
  have heq : storeGet st1 a1 = storeGet st2 a2 := by
    rw [hself1, hself2, hm]
  exact ⟨fun m m' e => by rw [e], heq, by rw [heq], by rw [heq]⟩

/-- Witness for C5: constructing the plug twice from the measures literal at
heap address 0 derives the same tree at both construction results; with the
module-level numbers the derived values are `clip.depth_pos = 11.10` and
`clip.straight_depth = 7.25 + 22.20 - 11.10 = 18.35`. -/
theorem derived_measure_pass_deterministic_witness :
    xmountPlugInit [(0, xmountDefaultMeasures)] 0 =
      some ([(1, xmountDerive xmountDefaultMeasures), (0, xmountDefaultMeasures)], 1) ∧
    xmountPlugInit [(1, xmountDerive xmountDefaultMeasures), (0, xmountDefaultMeasures)] 0 =
      some ([(2, xmountDerive xmountDefaultMeasures),
             (1, xmountDerive xmountDefaultMeasures), (0, xmountDefaultMeasures)], 2) ∧
    (xmountDerive xmountDefaultMeasures).clip.depth_pos = some 11.10 ∧
    (xmountDerive xmountDefaultMeasures).clip.straight_depth = 18.35 ∧
    storeGet [(1, xmountDerive xmountDefaultMeasures), (0, xmountDefaultMeasures)] 1 =
      storeGet [(2, xmountDerive xmountDefaultMeasures),
                (1, xmountDerive xmountDefaultMeasures), (0, xmountDefaultMeasures)] 2 := by
  have h1 : xmountPlugInit [(0, xmountDefaultMeasures)] 0 =
      some ([(1, xmountDerive xmountDefaultMeasures), (0, xmountDefaultMeasures)], 1) := by
    rfl
  have h2 : xmountPlugInit [(1, xmountDerive xmountDefaultMeasures), (0, xmountDefaultMeasures)] 0 =
      some ([(2, xmountDerive xmountDefaultMeasures),
             (1, xmountDerive xmountDefaultMeasures), (0, xmountDefaultMeasures)], 2) := by
    rfl
  refine ⟨h1, h2,
    by norm_num [xmountDerive, writeClipDepthPos, writeClipStraightDepth, xmountDefaultMeasures],
    by norm_num [xmountDerive, writeClipDepthPos, writeClipStraightDepth, xmountDefaultMeasures],
    ?_⟩
  exact (derived_measure_pass_deterministic [(0, xmountDefaultMeasures)] 0 _ _ 1 2 h1 h2).2.1

/-- C2 counterexample: in the `XMountPlug.build` composition the claim fails
at a concrete point of the build sequence.  The boolean cuts of the cutout
from the upper and lower stem boxes happen before the unions of lines
350-355, and those unions are applied to the already-cut stem solids, so it
is false that cuts are applied only after all unions. -/
theorem xmount_build_unions_consume_cut_solids :
    unionsNeverConsumeCuts xmountPlugCSG = false ∧
    hasCut xmountUpperStem = true ∧
    hasCut xmountLowerStem = true := by
  exact ⟨rfl, rfl, rfl⟩

/-- C2 amended: in the `XMountPlug` Part Assembly build, boolean cuts are
applied to individual sub-shapes (the stems lose the cutout) before those
sub-shapes are composed, the final composition is a pure chain of boolean
unions, and no cut is ever applied to a solid that already contains a union —
so the composed assembly is never the target of a later cut, but a union may
well consume a solid that has already been cut. -/
theorem xmount_build_cuts_act_before_composition :
    noCutOnUnioned xmountPlugCSG = true ∧
    hasCut xmountPlugCSG = true ∧
    hasUnion xmountPlugCSG = true := by
  refine ⟨by decide, by decide, by decide⟩

lemma arctan_lt_self_of_pos {x : ℝ} (hx : 0 < x) : Real.arctan x < x := by
  have h0 : 0 < Real.arctan x := by
    have h := Real.arctan_strictMono hx
    rwa [Real.arctan_zero] at h
  have h2 := Real.lt_tan h0 (Real.arctan_lt_pi_div_two x)
  rwa [Real.tan_arctan] at h2

lemma self_lt_arcsin_of_pos {x : ℝ} (hx : 0 < x) (hx1 : x ≤ 1) : x < Real.arcsin x := by
  have h0 : 0 < Real.arcsin x := Real.arcsin_pos.mpr hx
  have h2 := Real.sin_lt h0
  rwa [Real.sin_arcsin (by linarith) hx1] at h2

lemma degreesOf_lt_degreesOf {a b : ℝ} (h : a < b) : degreesOf a < degreesOf b := by
  unfold degreesOf
  exact (div_lt_div_iff_of_pos_right Real.pi_pos).mpr (by nlinarith)

/-- C3 counterexample: with the toilet-seat-support measures of
src/footblock/measures__toilet_seat_support.py (front height 16.6, back
height 19.1, depth measure `upper_depth` 94.0), the slope angle that
src/footblock/foot_block.py line 60 derives via `degrees(asin(...))` differs
from `degrees(atan2(back_height - front_height, depth))`, so the
Derived-Measure Pass does not compute the slope angle via the arctangent for
every measure tree with front height, back height and a depth measure. -/
theorem footblock_slope_angle_is_not_atan2 :
    footBlockDirSlopeAngle 16.6 19.1 94.0 ≠ degreesOf (atan2 (19.1 - 16.6) 94.0) := by
  have hx0 : (0 : ℝ) < (19.1 - 16.6) / 94.0 := by norm_num
  have hx1 : ((19.1 : ℝ) - 16.6) / 94.0 ≤ 1 := by norm_num
  have hlt : Real.arctan ((19.1 - 16.6) / 94.0) < Real.arcsin ((19.1 - 16.6) / 94.0) :=
    lt_trans (arctan_lt_self_of_pos hx0) (self_lt_arcsin_of_pos hx0 hx1)
  have hdeg := degreesOf_lt_degreesOf hlt
  unfold footBlockDirSlopeAngle atan2
  rw [if_pos (by norm_num : (0 : ℝ) < 94.0)]
  exact ne_of_gt hdeg

/-- C3 amended: the repository has two slope-angle derivations.
src/FootBlock.py line 53 computes the block's slope angle exactly as
`degrees(atan2(back_height - front_height, depth))` (its `atan` of the ratio
equals `atan2` for positive depth), while src/footblock/foot_block.py line
60 deliberately computes `degrees(asin(Δheight / upper_depth))` because its
`upper_depth` is measured along the sloped surface; for an inclined block
the asin-derived angle is strictly larger than the atan2 formula claims. -/
theorem slope_angle_derivations
    (front back depth ud : ℝ) (hd : 0 < depth) (hud : 0 < ud)
    (hfb : 0 < back - front) (hle : back - front ≤ ud) :
    footBlockSlopeAngle front back depth = degreesOf (atan2 (back - front) depth) ∧
    footBlockDirSlopeAngle front back ud = degreesOf (Real.arcsin ((back - front) / ud)) ∧
    degreesOf (atan2 (back - front) ud) < footBlockDirSlopeAngle front back ud := by
  refine ⟨?_, rfl, ?_⟩
  · unfold footBlockSlopeAngle atan2
    rw [if_pos hd]
  · have hx0 : 0 < (back - front) / ud := div_pos hfb hud
    have hx1 : (back - front) / ud ≤ 1 := (div_le_one hud).mpr hle
    have hlt := lt_trans (arctan_lt_self_of_pos hx0) (self_lt_arcsin_of_pos hx0 hx1)
    unfold footBlockDirSlopeAngle atan2
    rw [if_pos hud]
    exact degreesOf_lt_degreesOf hlt

/-- Witness for the amended C3: the two derivations evaluated on the
toilet-seat-support measures (an inclined block with positive depth). -/
theorem slope_angle_derivations_witness :
    ((0 : ℝ) < 94.0 ∧ (0 : ℝ) < 19.1 - 16.6 ∧ (19.1 : ℝ) - 16.6 ≤ 94.0) ∧
    footBlockSlopeAngle 16.6 19.1 94.0 = degreesOf (atan2 (19.1 - 16.6) 94.0) ∧
    footBlockDirSlopeAngle 16.6 19.1 94.0 =
      degreesOf (Real.arcsin ((19.1 - 16.6) / 94.0)) ∧
    degreesOf (atan2 (19.1 - 16.6) 94.0) < footBlockDirSlopeAngle 16.6 19.1 94.0 := by
  refine ⟨⟨by norm_num, by norm_num, by norm_num⟩, ?_⟩
  exact slope_angle_derivations 16.6 19.1 94.0 94.0 (by norm_num) (by norm_num)
    (by norm_num) (by norm_num)

lemma segGap_nonneg (a b x : ℝ) : 0 ≤ segGap a b x :=
  le_trans (le_max_right _ _) (le_max_right _ _)

lemma segGap_eq_zero_iff (a b x : ℝ) : segGap a b x = 0 ↔ a ≤ x ∧ x ≤ b := by
  unfold segGap
  constructor
  · intro h
    constructor
    · have h1 : a - x ≤ 0 := by
        calc a - x ≤ max (a - x) (max (x - b) 0) := le_max_left _ _
        _ = 0 := h
      linarith
    · have h2 : x - b ≤ 0 := by
        calc x - b ≤ max (x - b) 0 := le_max_left _ _
        _ ≤ max (a - x) (max (x - b) 0) := le_max_right _ _
        _ = 0 := h
      linarith
  · rintro ⟨h1, h2⟩
    rw [max_eq_right (show x - b ≤ (0 : ℝ) by linarith)]
    rw [max_eq_right (show a - x ≤ (0 : ℝ) by linarith)]

/-- The top face of the rim-filleted box is exactly the original top-face
rectangle inset by the radius on all four sides. -/
lemma topFaceRegion_eq (w d h r : ℝ)
    (hr : 0 < r) (hw : 2 * r ≤ w) (hd2 : 2 * r ≤ d) (hh : r ≤ h) :
    topFaceRegion w d h r = Set.Icc r (w - r) ×ˢ Set.Icc r (d - r) := by
  ext q
  obtain ⟨x, y⟩ := q
  simp only [topFaceRegion, filletTopFace, boxSet, Set.mem_setOf_eq, Set.mem_prod,
    Set.mem_Icc]
  constructor
  · rintro ⟨⟨hx, hy, hz⟩, hdisj⟩
    rcases hdisj with hzl | hball
    · exfalso; linarith
    · have hzero : r ^ 2 - ((h : ℝ) - (h - r)) ^ 2 = 0 := by ring
      rw [hzero] at hball
      have g1 := segGap_nonneg r (w - r) x
      have g2 := segGap_nonneg r (d - r) y
      have e1 : segGap r (w - r) x = 0 := by nlinarith [hball, g1, g2]
      have e2 : segGap r (d - r) y = 0 := by nlinarith [hball, g1, g2]
      exact ⟨(segGap_eq_zero_iff _ _ _).mp e1, (segGap_eq_zero_iff _ _ _).mp e2⟩
  · rintro ⟨⟨hx1, hx2⟩, hy1, hy2⟩
    refine ⟨⟨⟨by linarith, by linarith⟩, ⟨by linarith, by linarith⟩,
      by constructor <;> linarith⟩, Or.inr ?_⟩
    rw [(segGap_eq_zero_iff _ _ _).mpr ⟨hx1, hx2⟩,
      (segGap_eq_zero_iff _ _ _).mpr ⟨hy1, hy2⟩]
    nlinarith [sq_nonneg r]

lemma volume_Icc_prod (a b c e : ℝ) :
    MeasureTheory.volume (Set.Icc a b ×ˢ Set.Icc c e : Set (ℝ × ℝ)) =
      ENNReal.ofReal (b - a) * ENNReal.ofReal (e - c) := by
  rw [MeasureTheory.Measure.volume_eq_prod, MeasureTheory.Measure.prod_prod,
    Real.volume_Icc, Real.volume_Icc]

/-- C4 counterexample: for the concrete lid-fixer box (width 55.0, depth
8.0, height 5.5, radius 3.99 — src/lidfixer/lid_fixer.py lines 8-13), the
top face of the rim-filleted solid has area
`(55 - 2 * 3.99) * (8 - 2 * 3.99) = 0.9404`, so the area deficit relative to
the un-filleted 55 × 8 rectangle exceeds the claimed four-corner loss
`4 * (1 - pi / 4) * 3.99 ^ 2` by more than 400 square millimetres — far
beyond any kernel tolerance, refuting the claimed approximate equality. -/
theorem lid_fixer_fillet_area_claim_false :
    MeasureTheory.volume (topFaceRegion 55.0 8.0 5.5 3.99) =
      ENNReal.ofReal ((55.0 - 2 * 3.99) * (8.0 - 2 * 3.99)) ∧
    (55.0 * 8.0 : ℝ) - (55.0 - 2 * 3.99) * (8.0 - 2 * 3.99) >
      4 * (1 - Real.pi / 4) * 3.99 ^ 2 + 400 := by
  constructor
  · have hre := topFaceRegion_eq 55.0 8.0 5.5 3.99 (by norm_num) (by norm_num)
      (by norm_num) (by norm_num)
    rw [hre, volume_Icc_prod, ← ENNReal.ofReal_mul (by norm_num)]
    congr 1
    ring
  · nlinarith [Real.pi_gt_three, Real.pi_lt_four]

/-- C4 amended: the lid-fixer fillet of radius 3.99 applied to the top face
of the 55.0 × 8.0 × 5.5 box keeps the overall height at 5.5 — every solid
point stays between heights 0 and h and the full height is still attained —
but the top face is the original rectangle inset by the radius on all four
sides, with area `(w - 2r) * (d - 2r)` (0.9404 at the concrete measures),
because `faces(">Z").edges().fillet(r)` rounds the whole top rim into a
nearly cylindrical top (the source comment on line 12 says the radius is
chosen as almost half the depth to get a cylindrical shape); the four-corner
plan-view loss `4 * (1 - pi/4) * r^2` does not describe this fillet. -/
theorem lid_fixer_top_fillet_geometry (w d h r : ℝ)
    (hr : 0 < r) (hw : 2 * r ≤ w) (hd2 : 2 * r ≤ d) (hh : r ≤ h) :
    topFaceRegion w d h r = Set.Icc r (w - r) ×ˢ Set.Icc r (d - r) ∧
    MeasureTheory.volume (topFaceRegion w d h r) =
      ENNReal.ofReal (w - 2 * r) * ENNReal.ofReal (d - 2 * r) ∧
    (∀ p ∈ filletTopFace w d h r, 0 ≤ p.2.2 ∧ p.2.2 ≤ h) ∧
    ((w / 2, d / 2, h) : ℝ × ℝ × ℝ) ∈ filletTopFace w d h r ∧
    ((w / 2, d / 2, 0) : ℝ × ℝ × ℝ) ∈ filletTopFace w d h r := by
  have hre := topFaceRegion_eq w d h r hr hw hd2 hh
  refine ⟨hre, ?_, ?_, ?_, ?_⟩
  · rw [hre, volume_Icc_prod,
      show w - r - r = w - 2 * r by ring, show d - r - r = d - 2 * r by ring]
  · rintro p ⟨⟨_, _, hz⟩, _⟩
    exact ⟨hz.1, hz.2⟩
  · have hmem : ((w / 2, d / 2) : Pt2) ∈ Set.Icc r (w - r) ×ˢ Set.Icc r (d - r) := by
      constructor
      · constructor <;> · simp only []; linarith
      · constructor <;> · simp only []; linarith
    rw [← hre] at hmem
    exact hmem
  · exact ⟨⟨⟨by linarith, by linarith⟩, ⟨by linarith, by linarith⟩,
      ⟨le_refl 0, by linarith⟩⟩, Or.inl (by linarith)⟩

/-- Witness for the amended C4: the geometry at the concrete lid-fixer
measures; the inset top face has area 47.02 × 0.02 = 0.9404. -/
theorem lid_fixer_top_fillet_geometry_witness :
    ((0 : ℝ) < 3.99 ∧ 2 * (3.99 : ℝ) ≤ 55.0 ∧ 2 * (3.99 : ℝ) ≤ 8.0 ∧ (3.99 : ℝ) ≤ 5.5) ∧
    topFaceRegion 55.0 8.0 5.5 3.99 =
      Set.Icc 3.99 (55.0 - 3.99) ×ˢ Set.Icc 3.99 (8.0 - 3.99) ∧
    MeasureTheory.volume (topFaceRegion 55.0 8.0 5.5 3.99) =
      ENNReal.ofReal (55.0 - 2 * 3.99) * ENNReal.ofReal (8.0 - 2 * 3.99) ∧
    (∀ p ∈ filletTopFace 55.0 8.0 5.5 3.99, 0 ≤ p.2.2 ∧ p.2.2 ≤ 5.5) ∧
    ((55.0 / 2, 8.0 / 2, 5.5) : ℝ × ℝ × ℝ) ∈ filletTopFace 55.0 8.0 5.5 3.99 ∧
    ((55.0 / 2, 8.0 / 2, 0) : ℝ × ℝ × ℝ) ∈ filletTopFace 55.0 8.0 5.5 3.99 := by
  refine ⟨⟨by norm_num, by norm_num, by norm_num, by norm_num⟩, ?_⟩
  exact lid_fixer_top_fillet_geometry 55.0 8.0 5.5 3.99 (by norm_num) (by norm_num)
    (by norm_num) (by norm_num)

lemma applyStep_tags (wpx : Workplane) (s : BuildStep) : (applyStep wpx s).tags = wpx.tags := by
  cases s <;> rfl

lemma foldl_applyStep_tags (steps : List BuildStep) (wpx : Workplane) :
    (steps.foldl applyStep wpx).tags = wpx.tags := by
  induction steps generalizing wpx with
  | nil => rfl
  | cons s rest ih => rw [List.foldl_cons, ih, applyStep_tags]

/-- C6: restoring a workplane from a tag recorded earlier yields exactly the
tagged frame — same origin and same axes — no matter which unrelated
construction steps (sketches, plane changes, lofts, fillets, cuts) happened
in between, because none of them writes to the shared tag context; and
restoring a name that was never tagged fails with a tag-not-found error. -/
theorem workplane_tag_restores_frame
    (wp : Workplane) (name fresh : String) (steps : List BuildStep)
    (hfresh : findTag wp.tags fresh = none) :
    workplaneFromTagged name (steps.foldl applyStep (tag name wp)) =
      Except.ok { steps.foldl applyStep (tag name wp) with plane := wp.plane } ∧
    workplaneFromTagged fresh wp = Except.error ("tag not found: " ++ fresh) := by
  constructor
  · have ht : (steps.foldl applyStep (tag name wp)).tags = (name, wp.plane) :: wp.tags := by
      rw [foldl_applyStep_tags]
      rfl
    have hfind : findTag (steps.foldl applyStep (tag name wp)).tags name = some wp.plane := by
      rw [ht]
      simp [findTag]
    unfold workplaneFromTagged
    rw [hfind]
  · unfold workplaneFromTagged
    rw [hfresh]

/-- Witness for C6: tagging the footblock's upper-face workplane on a bare
XY workplane, running a concrete batch of unrelated steps, then restoring
the tag returns the original XY frame, while restoring a never-recorded tag
name fails. -/
theorem workplane_tag_restores_frame_witness :
    findTag witBaseWp.tags "recess_bottom_workplane" = none ∧
    workplaneFromTagged "upper_face_workplane"
        (witSteps.foldl applyStep (tag "upper_face_workplane" witBaseWp)) =
      Except.ok
        { witSteps.foldl applyStep (tag "upper_face_workplane" witBaseWp) with
            plane := witBaseWp.plane } ∧
    workplaneFromTagged "recess_bottom_workplane" witBaseWp =
      Except.error ("tag not found: " ++ "recess_bottom_workplane") := by
  refine ⟨rfl, ?_⟩
  exact workplane_tag_restores_frame witBaseWp "upper_face_workplane"
    "recess_bottom_workplane" witSteps rfl

/-- C7: for every `profile_wire` invocation, the debug flag in the measure
tree only controls whether the intermediate wire is emitted to the external
visualization sink under the caller-supplied name; the returned wire is one
and the same whether the flag is set or not (so every later computation on
it is identical), the emission channel is empty with the flag off, and with
the flag on and a name supplied the wire is emitted exactly once under that
name. -/
theorem profile_wire_debug_only_controls_emission
    (t : ℝ) (height hook_depth hook_height hook_height_infill : ℝ)
    (overhang_angle overhang_size : ℝ) (nm : Option String) :
    ∃ u : Wire,
      (∀ b : Bool,
        (profile_wire ⟨t, b⟩ height hook_depth hook_height hook_height_infill
            overhang_angle overhang_size nm).map Prod.fst = some u) ∧
      profile_wire ⟨t, false⟩ height hook_depth hook_height hook_height_infill
          overhang_angle overhang_size nm = some (u, []) ∧
      (∀ n : String,
        profile_wire ⟨t, true⟩ height hook_depth hook_height hook_height_infill
            overhang_angle overhang_size (some n) = some (u, [(n, u)])) := by
  refine ⟨planarUnionCore (lensOuterWire t height)
      [lensHookWire t hook_depth hook_height_infill,
       lensHookTipWire t hook_depth hook_height,
       lensOverhangWire t height overhang_angle overhang_size], ?_, rfl, fun n => rfl⟩
  intro b
  cases b <;> rfl

/-- Witness for C7: the lens-cover start-profile invocation (thickness 1.6,
height 35.3, hook depth 4.6, hook height 8.0, default infill 0.1, overhang
angle 45, overhang size 7.0): same returned wire with debug off and on, no
emission with debug off, one named emission with debug on. -/
theorem profile_wire_debug_only_controls_emission_witness :
    (profile_wire ⟨1.6, true⟩ 35.3 4.6 8.0 0.1 45 7.0 (some "lens_start_wire")).map
        Prod.fst =
      (profile_wire ⟨1.6, false⟩ 35.3 4.6 8.0 0.1 45 7.0 (some "lens_start_wire")).map
        Prod.fst ∧
    profile_wire ⟨1.6, false⟩ 35.3 4.6 8.0 0.1 45 7.0 (some "lens_start_wire") =
      some (lensWitnessWire, []) ∧
    profile_wire ⟨1.6, true⟩ 35.3 4.6 8.0 0.1 45 7.0 (some "lens_start_wire") =
      some (lensWitnessWire, [("lens_start_wire", lensWitnessWire)]) := by
  obtain ⟨u, h1, h2, h3⟩ :=
    profile_wire_debug_only_controls_emission 1.6 35.3 4.6 8.0 0.1 45 7.0
      (some "lens_start_wire")
  have hpair : (u, ([] : List (String × Wire))) = (lensWitnessWire, []) :=
    Option.some.inj
      (h2.symm.trans
        (rfl : profile_wire ⟨1.6, false⟩ 35.3 4.6 8.0 0.1 45 7.0
            (some "lens_start_wire") = some (lensWitnessWire, [])))
  have hu : u = lensWitnessWire := congrArg Prod.fst hpair
  subst hu
  exact ⟨(h1 true).trans (h1 false).symm, h2, h3 "lens_start_wire"⟩

end CadModels
